import Mathlib

/-!
Shallow embedding of the UNO bot session core
(`bot/uno/game.py`, `bot/extensions/uno.py`, `bot/core/bot.py`).

Players and channels are identified by natural numbers (the transport
supplies opaque identities compared by equality). Python exceptions are
modelled with `Except`, Python sets with `Finset Nat`, and the mutable
session object with an explicit state record.
-/

/-- A card. `color` and `type` hold the numeric values of the corresponding
enums, `value` the optional number printed on a number card.
Modelled from the spec: class `Card` lives in `bot/uno/cards.py`, which is not
among the provided sources; the spec describes it as an immutable value with a
color enum, a type enum and an optional numeric value, compared structurally. -/
structure Card where
  color : Nat
  type : Nat
  value : Option Nat
deriving DecidableEq, Repr

/-- Failure kinds of deck operations. `indexError` is what the Python
expression `self._internal_deck.pop(0)` raises on an empty list.
`emptyDeckError` is modelled from the spec: the spec names an `EmptyDeckError`
class, but no such class is defined or imported anywhere in the sources. -/
inductive PyErr where
  | indexError
  | emptyDeckError
deriving DecidableEq, Repr

/-- `Deck.pop` (game.py line 210): `return self._internal_deck.pop(0)`.
Removes and returns the front card; an empty list raises `IndexError`. -/
def Deck.pop (d : List Card) : Except PyErr (Card × List Card) :=
  match d with
  | [] => .error .indexError
  | c :: rest => .ok (c, rest)

/-- `RuleSet` (game.py lines 13-18) with its field defaults. -/
structure RuleSet where
  stacking : Bool := true
  progressive : Bool := true
  seven_o : Bool := false
  jump_in : Bool := false
deriving DecidableEq, Repr

/-- The keys of `RuleSetPrompt.CHOICES` (game.py lines 41-58), in source
order. -/
def RuleSetPrompt.CHOICES : List String :=
  ["stacking", "progressive", "seven_o", "jump_in"]

/-- One iteration of the loop in `RuleSetPrompt.callback`:
`setattr(self.game.rule_set, value, value in values)` for a single flag
name. -/
def RuleSet.setFlag (rs : RuleSet) (name : String) (b : Bool) : RuleSet :=
  if name = "stacking" then { rs with stacking := b }
  else if name = "progressive" then { rs with progressive := b }
  else if name = "seven_o" then { rs with seven_o := b }
  else if name = "jump_in" then { rs with jump_in := b }
  else rs

/-- `RuleSetPrompt.callback` (game.py lines 78-83): for every choice key,
set the flag of that name to whether the key occurs in the submitted
selection `values`. -/
def RuleSetPrompt.callback (rs : RuleSet) (values : List String) : RuleSet :=
  RuleSetPrompt.CHOICES.foldl (fun acc v => acc.setFlag v (values.contains v)) rs

/-- A hand: the owning player and the internal card list `self._cards`
(game.py lines 217-221). The back reference to the game is replaced by
passing the deck explicitly. -/
structure Hand where
  player : Nat
  _cards : List Card
deriving DecidableEq, Repr

/-- `Hand._draw_one` (game.py lines 229-232): pop the front card off the
game deck and append it to the hand. -/
def Hand.draw_one (h : Hand) (deck : List Card) :
    Except PyErr (Card × Hand × List Card) :=
  match Deck.pop deck with
  | .error e => .error e
  | .ok (c, d2) => .ok (c, { h with _cards := h._cards ++ [c] }, d2)

/-- The list comprehension `[self._draw_one() for _ in range(amount)]` in
`Hand.draw`: `n` sequential single-card draws, collected in draw order. -/
def Hand.drawLoop : Nat → Hand → List Card → Except PyErr (List Card × Hand × List Card)
  | 0, h, d => .ok ([], h, d)
  | n + 1, h, d =>
    match Hand.draw_one h d with
    | .error e => .error e
    | .ok (c, h2, d2) =>
      match Hand.drawLoop n h2 d2 with
      | .error e => .error e
      | .ok (cs, h3, d3) => .ok (c :: cs, h3, d3)

/-- The result of `Hand.draw`: a single card for `amount == 1`, else the
list of drawn cards. -/
inductive DrawResult where
  | one (c : Card)
  | many (cs : List Card)
deriving DecidableEq, Repr

/-- `Hand.draw` (game.py lines 238-242). -/
def Hand.draw (amount : Nat) (h : Hand) (deck : List Card) :
    Except PyErr (DrawResult × Hand × List Card) :=
  if amount = 1 then
    match Hand.draw_one h deck with
    | .error e => .error e
    | .ok (c, h2, d2) => .ok (.one c, h2, d2)
  else
    match Hand.drawLoop amount h deck with
    | .error e => .error e
    | .ok (cs, h2, d2) => .ok (.many cs, h2, d2)

/-- `Hand._card_sort_key` (game.py lines 244-246):
`card.color.value, card.type.value, card.value or 0`. -/
def Hand.card_sort_key (c : Card) : Nat × Nat × Nat :=
  (c.color, c.type, c.value.getD 0)

/-- Lexicographic comparison of sort-key triples: Python compares tuples
lexicographically when sorting. -/
def keyTupleLe (x y : Nat × Nat × Nat) : Bool :=
  decide (x.1 < y.1 ∨ (x.1 = y.1 ∧
    (x.2.1 < y.2.1 ∨ (x.2.1 = y.2.1 ∧ x.2.2 ≤ y.2.2))))

/-- The card ordering induced by `Hand._card_sort_key`. -/
def Card.keyLe (a b : Card) : Bool :=
  keyTupleLe (Hand.card_sort_key a) (Hand.card_sort_key b)

/-- The property getter `Hand.cards` (game.py lines 248-250):
`return sorted(self._cards, key=self._card_sort_key)`. A property read is
modelled as a state transformer returning the produced value together with
the object state after the read; `sorted` builds a fresh list, so the hand
is returned untouched. -/
def Hand.cards (h : Hand) : List Card × Hand :=
  (h._cards.mergeSort Card.keyLe, h)

/-- The mutable session state owned by class `UNO` (game.py lines 253-273)
together with its fixed `host`. -/
structure GameState where
  host : Nat
  players : Finset Nat
  rule_set : RuleSet
  hands : List Hand
  deck : List Card
  turn : Nat
  current : Option Card
deriving DecidableEq

/-- `HostOnlyView.interaction_check` (game.py lines 31-37): the interaction
passes iff the acting user is the view owner; otherwise an ephemeral notice
is sent and the component callback is not run. -/
def HostOnlyView.interaction_check (owner actor : Nat) : Bool :=
  decide (actor = owner)

/-- A rule-change interaction: `RuleSetPrompt.callback` guarded by
`HostOnlyView.interaction_check` (the prompt sits on a `HostOnlyView` owned
by the host). A failed check leaves the session untouched. -/
def handleRuleChange (s : GameState) (actor : Nat) (values : List String) : GameState :=
  if HostOnlyView.interaction_check s.host actor then
    { s with rule_set := RuleSetPrompt.callback s.rule_set values }
  else s

/-- `PlayerQueueingView.join` (game.py lines 145-154): a duplicate join is
rejected with an ephemeral notice, otherwise the actor is added. -/
def PlayerQueueingView.join (s : GameState) (actor : Nat) : GameState :=
  if actor ∈ s.players then s
  else { s with players := insert actor s.players }

/-- `PlayerQueueingView.leave` (game.py lines 156-171): a non-member or the
host is rejected with an ephemeral notice, otherwise the actor is removed. -/
def PlayerQueueingView.leave (s : GameState) (actor : Nat) : GameState :=
  if actor ∉ s.players then s
  else if actor = s.host then s
  else { s with players := s.players.erase actor }

/-- The `immediate_start_button` callback (game.py lines 115-130): non-hosts
and rosters below 2 players are rejected; on success `self.stop()` ends the
queueing stage without touching any session field. The Boolean records
whether the stage was stopped. -/
def PlayerQueueingView.immediate_start (s : GameState) (actor : Nat) :
    GameState × Bool :=
  if actor ≠ s.host then (s, false)
  else if s.players.card < 2 then (s, false)
  else (s, true)

/-- Entry into the queueing stage, `PlayerQueueingView.__init__`
(game.py line 107): `game.players.add(self.game.host)`. -/
def PlayerQueueingView.init (s : GameState) : GameState :=
  { s with players := insert s.host s.players }

/-- The initial `disabled=True` of the `immediate_start_button`
(game.py line 112). -/
def immediate_start_button_disabled_init : Bool := true

/-- `PlayerQueueingView._update` (game.py line 136):
`self.immediate_start_button.disabled = len(self.players) > 1`. -/
def PlayerQueueingView.update_disabled (players : Finset Nat) : Bool :=
  decide (1 < players.card)

/-- The join, leave and start-now interactions reachable during the
queueing stage. -/
inductive QueueEvent where
  | join (actor : Nat)
  | leave (actor : Nat)
  | startNow (actor : Nat)
deriving DecidableEq, Repr

/-- One queueing-stage interaction applied to the session state. -/
def queueStep (s : GameState) : QueueEvent → GameState
  | .join a => PlayerQueueingView.join s a
  | .leave a => PlayerQueueingView.leave s a
  | .startNow a => (PlayerQueueingView.immediate_start s a).1

/-- `UNO._run_initial_prompts` (game.py lines 318-321), after the rule
prompt: one empty `Hand` per player, then `random.shuffle(self.hands)`.
The shuffled iteration order is modelled by the parameter `order`, an
arbitrary permutation of the player set. -/
def UNO.run_initial_prompts (order : List Nat) : List Hand :=
  order.map fun p => { player := p, _cards := [] }

/-- `UNO._deal_cards` (game.py lines 314-316):
`for hand in self.hands: hand.draw(7)`, consuming the deck left to
right. -/
def UNO.deal_cards : List Hand → List Card → Except PyErr (List Hand × List Card)
  | [], deck => .ok ([], deck)
  | h :: hs, deck =>
    match Hand.draw 7 h deck with
    | .error e => .error e
    | .ok (_, h2, d2) =>
      match UNO.deal_cards hs d2 with
      | .error e => .error e
      | .ok (hs2, d3) => .ok (h2 :: hs2, d3)

/-- The session state produced by the dealing stage. -/
structure SetupResult where
  current : Option Card
  hands : List Hand
  deck : List Card
  turn : Nat
deriving DecidableEq, Repr

/-- `UNO._setup` (game.py lines 323-326): shuffle the deck (the caller
passes the already-permuted deck), pop one card into `current`, deal 7
cards to every hand. `turn` keeps the constructor value 0
(game.py line 271), which no code in scope ever reassigns. -/
def UNO.setup (hands : List Hand) (shuffledDeck : List Card) :
    Except PyErr SetupResult :=
  match Deck.pop shuffledDeck with
  | .error e => .error e
  | .ok (c, d1) =>
    match UNO.deal_cards hands d1 with
    | .error e => .error e
    | .ok (hs, d2) => .ok { current := some c, hands := hs, deck := d2, turn := 0 }

/-- Outcome of one invocation of the `play` command. -/
inductive StartOutcome where
  | alreadyRunning
  | attributeError
deriving DecidableEq, Repr

/-- `UNO.play_uno` (extensions/uno.py lines 20-33) acting on the
channel-keyed registry `bot.uno_instances`. If the channel already holds a
session, a notice is sent and nothing changes. Otherwise a new game is
registered and started; after `await game.start()` the handler runs
`await game.wait()`, but class `UNO` in game.py defines no method `wait`,
so that call raises `AttributeError`. No `try`/`finally` protects the
registry deletion on lines 30-33, so the exception propagates out of the
command before `del self.bot.uno_instances[ctx.channel.id]` runs, leaving
the new entry registered. -/
def UNO.play_uno (reg : List (Nat × GameState)) (ch : Nat) (g : GameState) :
    List (Nat × GameState) × StartOutcome :=
  if (reg.lookup ch).isSome then (reg, .alreadyRunning)
  else ((ch, g) :: reg, .attributeError)

/-- A concrete session state used to instantiate theorems: host `0`,
players `{0}`, default rules, no hands dealt yet. -/
def sampleState : GameState :=
  { host := 0, players := {0}, rule_set := {}, hands := [], deck := [],
    turn := 0, current := none }

/-- A card value that occurs twice in the deck used to refute the
disjointness part of the draw claim; standard UNO decks carry two
structurally equal copies of most cards. -/
def dupCard : Card := { color := 0, type := 0, value := some 5 }

/-- An empty hand owned by player 0, used to instantiate theorems. -/
def emptyHand : Hand := { player := 0, _cards := [] }

/-- A concrete three-card duplicate-free deck used to instantiate
theorems. -/
def smallDeck : List Card :=
  [{ color := 0, type := 0, value := some 1 },
   { color := 1, type := 0, value := some 2 },
   { color := 2, type := 0, value := some 3 }]

/-- A concrete 15-card deck, exactly enough for a two-player deal
(2 times 7 hand cards plus the card popped into `current`). -/
def witnessDeck : List Card :=
  (List.range 15).map fun i => { color := i, type := 0, value := none }

/-- C2. Rule-change replacement: after `RuleSetPrompt.callback` each of the
four flags holds iff its name is in the submitted selection, whatever the
prior flag values; submitting `{stacking, jump_in}` and then `{}` leaves
all four flags false. -/
theorem C2_rule_change_replacement (rs : RuleSet) (values : List String) :
    ((RuleSetPrompt.callback rs values).stacking ↔ "stacking" ∈ values) ∧
    ((RuleSetPrompt.callback rs values).progressive ↔ "progressive" ∈ values) ∧
    ((RuleSetPrompt.callback rs values).seven_o ↔ "seven_o" ∈ values) ∧
    ((RuleSetPrompt.callback rs values).jump_in ↔ "jump_in" ∈ values) ∧
    RuleSetPrompt.callback (RuleSetPrompt.callback rs ["stacking", "jump_in"]) [] =
      { stacking := false, progressive := false, seven_o := false, jump_in := false } := by
  refine ⟨?_, ?_, ?_, ?_, rfl⟩ <;>
    simp [RuleSetPrompt.callback, RuleSetPrompt.CHOICES, RuleSet.setFlag,
      List.contains, List.elem_iff]

/-- C4 (amended). `Deck.pop` on a non-empty deck removes and returns the
front card, leaving exactly the remaining cards; on an empty deck it fails,
raising the list underflow error `IndexError` (not an `EmptyDeckError`,
which the code never defines or raises). -/
theorem C4_pop_front_or_index_error :
    Deck.pop ([] : List Card) = .error .indexError ∧
    ∀ (c : Card) (rest : List Card), Deck.pop (c :: rest) = .ok (c, rest) :=
  ⟨rfl, fun _ _ => rfl⟩

/-- C4 counterexample: popping the empty deck yields `IndexError`, which is
not the `EmptyDeckError` the claim names. -/
theorem C4_counterexample :
    Deck.pop ([] : List Card) = .error .indexError ∧
    PyErr.indexError ≠ PyErr.emptyDeckError :=
  ⟨rfl, by decide⟩

/-- C7. Duplicate-session conflict: a `play` command for a channel already
present in the instance map is rejected, the registry is returned unchanged
and the stored session (with its players, turn and hands) is still the
one registered before. -/
theorem C7_duplicate_session (reg : List (Nat × GameState)) (ch : Nat)
    (g g0 : GameState) (h : reg.lookup ch = some g0) :
    UNO.play_uno reg ch g = (reg, .alreadyRunning) ∧
    (UNO.play_uno reg ch g).1.lookup ch = some g0 := by
  have hs : (reg.lookup ch).isSome := by rw [h]; rfl
  constructor
  · simp [UNO.play_uno, hs]
  · simp [UNO.play_uno, hs, h]

/-- C7 witness: a concrete registry holding channel 5 rejects a second
start for channel 5 untouched. -/
theorem C7_witness :
    UNO.play_uno [(5, sampleState)] 5 sampleState =
      ([(5, sampleState)], .alreadyRunning) ∧
    (UNO.play_uno [(5, sampleState)] 5 sampleState).1.lookup 5 =
      some sampleState :=
  C7_duplicate_session [(5, sampleState)] 5 sampleState sampleState rfl

/-- C8. Teardown: starting a session in a fresh channel registers it, but
the command then raises `AttributeError` at `await game.wait()` (class
`UNO` has no `wait` method) before the registry deletion can run, so the
session is still registered when the command exits — teardown happens zero
times on this path, not exactly once. -/
theorem C8_teardown_never_runs :
    UNO.play_uno [] 0 sampleState = ([(0, sampleState)], .attributeError) ∧
    (UNO.play_uno [] 0 sampleState).1.lookup 0 = some sampleState :=
  ⟨rfl, rfl⟩

/-- C10. Start-button enablement is inverted: the button starts disabled,
`_update` sets `disabled` to `len(players) > 1`, so every roster of 2 or
more players disables it, and whenever it is enabled a press by the host
is exactly the case the fewer-than-2-players check rejects. -/
theorem C10_start_button_inverted (s : GameState) :
    immediate_start_button_disabled_init = true ∧
    PlayerQueueingView.update_disabled s.players = decide (1 < s.players.card) ∧
    (2 ≤ s.players.card → PlayerQueueingView.update_disabled s.players = true) ∧
    (PlayerQueueingView.update_disabled s.players = false ↔ s.players.card < 2) ∧
    (PlayerQueueingView.update_disabled s.players = false →
      PlayerQueueingView.immediate_start s s.host = (s, false)) := by
  refine ⟨rfl, rfl, ?_, ?_, ?_⟩
  · intro h
    simp [PlayerQueueingView.update_disabled]
    omega
  · simp [PlayerQueueingView.update_disabled]
    omega
  · intro h
    have hlt : s.players.card < 2 := by
      simpa [PlayerQueueingView.update_disabled, Nat.lt_iff_add_one_le] using h
    simp [PlayerQueueingView.immediate_start, hlt]

/-- C10 witness: instantiated at a two-player roster (button disabled) and
at the one-player roster `sampleState` (button enabled, start rejected). -/
theorem C10_witness :
    PlayerQueueingView.update_disabled
      ({ sampleState with players := {0, 1} } : GameState).players = true ∧
    PlayerQueueingView.immediate_start sampleState sampleState.host =
      (sampleState, false) :=
  ⟨(C10_start_button_inverted { sampleState with players := {0, 1} }).2.2.1
      (by decide),
    (C10_start_button_inverted sampleState).2.2.2.2 (by decide)⟩

/-- C3. Rejection atomicity: every rejected interaction — rule change by a
non-host, duplicate join, leave by a non-member, leave by the host,
start-now by a non-host, start-now below 2 players — returns the session
state exactly as it was. -/
theorem C3_rejection_atomicity (s : GameState) (actor : Nat) (values : List String) :
    (actor ≠ s.host → handleRuleChange s actor values = s) ∧
    (actor ∈ s.players → PlayerQueueingView.join s actor = s) ∧
    (actor ∉ s.players → PlayerQueueingView.leave s actor = s) ∧
    (actor = s.host → PlayerQueueingView.leave s actor = s) ∧
    (actor ≠ s.host → PlayerQueueingView.immediate_start s actor = (s, false)) ∧
    (s.players.card < 2 → PlayerQueueingView.immediate_start s actor = (s, false)) := by
  refine ⟨?_, ?_, ?_, ?_, ?_, ?_⟩
  · intro h
    simp [handleRuleChange, HostOnlyView.interaction_check, h]
  · intro h
    simp [PlayerQueueingView.join, h]
  · intro h
    simp [PlayerQueueingView.leave, h]
  · intro h
    by_cases hm : actor ∈ s.players <;>
      simp [PlayerQueueingView.leave, h, hm]
  · intro h
    simp [PlayerQueueingView.immediate_start, h]
  · intro h
    by_cases hh : actor = s.host <;>
      simp [PlayerQueueingView.immediate_start, h, hh]

/-- C3 witness: concrete rejected interactions against `sampleState`
(host 0, players `{0}`): rule change, start-now and absent-leave by
actor 1; duplicate join, host leave and under-populated start-now by
actor 0. All leave the state untouched. -/
theorem C3_witness :
    handleRuleChange sampleState 1 ["stacking"] = sampleState ∧
    PlayerQueueingView.join sampleState 0 = sampleState ∧
    PlayerQueueingView.leave sampleState 1 = sampleState ∧
    PlayerQueueingView.leave sampleState 0 = sampleState ∧
    PlayerQueueingView.immediate_start sampleState 1 = (sampleState, false) ∧
    PlayerQueueingView.immediate_start sampleState 0 = (sampleState, false) :=
  ⟨(C3_rejection_atomicity sampleState 1 ["stacking"]).1 (by decide),
   (C3_rejection_atomicity sampleState 0 []).2.1 (by decide),
   (C3_rejection_atomicity sampleState 1 []).2.2.1 (by decide),
   (C3_rejection_atomicity sampleState 0 []).2.2.2.1 (by decide),
   (C3_rejection_atomicity sampleState 1 []).2.2.2.2.1 (by decide),
   (C3_rejection_atomicity sampleState 0 []).2.2.2.2.2 (by decide)⟩

/-- Helper: a single queueing interaction never changes the host field and
never removes a host who is a member of the player set. -/
theorem queueStep_preserves_host (s : GameState) (e : QueueEvent)
    (hm : s.host ∈ s.players) :
    (queueStep s e).host = s.host ∧ (queueStep s e).host ∈ (queueStep s e).players := by
  cases e with
  | join a =>
    by_cases h : a ∈ s.players <;>
      simp [queueStep, PlayerQueueingView.join, h, Finset.mem_insert, hm]
  | leave a =>
    by_cases h1 : a ∈ s.players
    · by_cases h2 : a = s.host
      · simp [queueStep, PlayerQueueingView.leave, h1, h2, hm]
      · refine ⟨by simp [queueStep, PlayerQueueingView.leave, h1, h2], ?_⟩
        simp [queueStep, PlayerQueueingView.leave, h1, h2, Finset.mem_erase, hm]
        exact fun hc => h2 hc.symm
    · simp [queueStep, PlayerQueueingView.leave, h1, hm]
  | startNow a =>
    by_cases h1 : a ≠ s.host <;> by_cases h2 : s.players.card < 2 <;>
      simp [queueStep, PlayerQueueingView.immediate_start, h1, h2, hm]

/-- Helper: along any queueing interaction trace the host stays a member of
the player set. -/
theorem foldl_queueStep_host_mem (events : List QueueEvent) (s : GameState)
    (hm : s.host ∈ s.players) :
    (events.foldl queueStep s).host ∈ (events.foldl queueStep s).players := by
  induction events generalizing s with
  | nil => exact hm
  | cons e rest ih =>
    have h := queueStep_preserves_host s e hm
    simpa [List.foldl_cons] using ih (queueStep s e) h.2

/-- C5. Host-membership invariant: entering the queueing stage adds the
host to the players idempotently (no change when already present), and
after any sequence of join, leave or start-now interactions the host is
still a member of the player set. -/
theorem C5_host_membership (s : GameState) (events : List QueueEvent) :
    (s.host ∈ s.players → PlayerQueueingView.init s = s) ∧
    (events.foldl queueStep (PlayerQueueingView.init s)).host ∈
      (events.foldl queueStep (PlayerQueueingView.init s)).players := by
  constructor
  · intro h
    simp [PlayerQueueingView.init, Finset.insert_eq_self.mpr h]
  · exact foldl_queueStep_host_mem events (PlayerQueueingView.init s)
      (by simp [PlayerQueueingView.init])

/-- C5 witness: with host 0 already a member, queueing entry is a no-op,
and after a join, a host-leave attempt, a member leave and a start-now the
host is still in the player set. -/
theorem C5_witness :
    PlayerQueueingView.init sampleState = sampleState ∧
    (([QueueEvent.join 1, QueueEvent.leave 0, QueueEvent.leave 1,
        QueueEvent.startNow 0]).foldl queueStep
      (PlayerQueueingView.init sampleState)).host ∈
      (([QueueEvent.join 1, QueueEvent.leave 0, QueueEvent.leave 1,
          QueueEvent.startNow 0]).foldl queueStep
        (PlayerQueueingView.init sampleState)).players :=
  ⟨(C5_host_membership sampleState []).1 (by decide),
   (C5_host_membership sampleState
      [QueueEvent.join 1, QueueEvent.leave 0, QueueEvent.leave 1,
        QueueEvent.startNow 0]).2⟩

/-- Helper: `n` single-card draws against a deck of at least `n` cards move
exactly the first `n` deck cards, in order, onto the end of the hand. -/
theorem Hand.drawLoop_eq (n : Nat) (h : Hand) (d : List Card)
    (hn : n ≤ d.length) :
    Hand.drawLoop n h d =
      .ok (d.take n, { h with _cards := h._cards ++ d.take n }, d.drop n) := by
  induction n generalizing h d with
  | zero => simp [Hand.drawLoop]
  | succ n ih =>
    cases d with
    | nil => simp at hn
    | cons c rest =>
      have hr : n ≤ rest.length := by simpa using hn
      simp [Hand.drawLoop, Hand.draw_one, Deck.pop, ih _ rest hr]

/-- C6 (amended). `Hand.draw n` with `n ≥ 1` against a deck of at least `n`
cards pops the first `n` deck cards one at a time, appending each to the
hand: the hand grows by exactly `n`, the deck shrinks by exactly `n`,
`draw 1` returns the single drawn card and `draw n` for `n > 1` the list of
drawn cards in draw order — all of this for every such deck; additionally,
provided the deck has no duplicate cards and shares none with the starting
hand, no card is in both hand and deck afterward. -/
theorem C6_hand_draw (n : Nat) (h : Hand) (deck : List Card)
    (hn1 : 1 ≤ n) (hn2 : n ≤ deck.length) :
    ∃ res hd dk, Hand.draw n h deck = .ok (res, hd, dk) ∧
      hd.player = h.player ∧
      hd._cards = h._cards ++ deck.take n ∧
      hd._cards.length = h._cards.length + n ∧
      dk = deck.drop n ∧
      dk.length = deck.length - n ∧
      (deck.Nodup → (∀ c ∈ h._cards, c ∉ deck) → ∀ c ∈ hd._cards, c ∉ dk) ∧
      (n = 1 → ∃ c, deck.take 1 = [c] ∧ res = DrawResult.one c) ∧
      (1 < n → res = DrawResult.many (deck.take n)) := by
  have hdisj : deck.Nodup → (∀ c ∈ h._cards, c ∉ deck) →
      ∀ c ∈ h._cards ++ deck.take n, c ∉ deck.drop n := by
    intro hnd hdj
    have hsplit := List.take_append_drop n deck
    have hnd2 : ((deck.take n) ++ (deck.drop n)).Nodup := by rw [hsplit]; exact hnd
    have htd : (deck.take n).Disjoint (deck.drop n) :=
      (List.nodup_append.mp hnd2).2.2
    intro c hc
    rcases List.mem_append.mp hc with hc | hc
    · intro hcd
      exact hdj c hc (by
        rw [← hsplit]
        exact List.mem_append.mpr (Or.inr hcd))
    · exact fun hcd => htd hc hcd
  have hlenh : (h._cards ++ deck.take n).length = h._cards.length + n := by
    simp [List.length_take, Nat.min_eq_left hn2]
  have hlend : (deck.drop n).length = deck.length - n := by
    simp
  rcases Nat.lt_or_ge 1 n with hgt | hle
  · have hne : n ≠ 1 := by omega
    refine ⟨DrawResult.many (deck.take n),
      { h with _cards := h._cards ++ deck.take n }, deck.drop n, ?_, rfl, rfl,
      hlenh, rfl, hlend, hdisj, by omega, fun _ => rfl⟩
    simp [Hand.draw, hne, Hand.drawLoop_eq n h deck hn2]
  · have hone : n = 1 := by omega
    subst hone
    cases deck with
    | nil => simp at hn2
    | cons c rest =>
      refine ⟨DrawResult.one c, { h with _cards := h._cards ++ [c] }, rest,
        ?_, rfl, by simp, by simp, by simp, by simp,
        ?_, fun _ => ⟨c, by simp, rfl⟩, by omega⟩
      · simp [Hand.draw, Hand.draw_one, Deck.pop]
      · intro hnd hdj
        simpa using hdisj hnd hdj

/-- C6 witness: drawing 2 cards from a 3-card duplicate-free deck into an
empty hand. -/
theorem C6_witness :
    ∃ res hd dk,
      Hand.draw 2 emptyHand smallDeck = .ok (res, hd, dk) ∧
      hd.player = emptyHand.player ∧
      hd._cards = emptyHand._cards ++ smallDeck.take 2 ∧
      hd._cards.length = emptyHand._cards.length + 2 ∧
      dk = smallDeck.drop 2 ∧
      dk.length = smallDeck.length - 2 ∧
      (smallDeck.Nodup → (∀ c ∈ emptyHand._cards, c ∉ smallDeck) →
        ∀ c ∈ hd._cards, c ∉ dk) ∧
      (2 = 1 → ∃ c, smallDeck.take 1 = [c] ∧ res = DrawResult.one c) ∧
      (1 < 2 → res = DrawResult.many (smallDeck.take 2)) :=
  C6_hand_draw 2 emptyHand smallDeck (by decide) (by decide)

/-- C6 counterexample: with two structurally equal copies of a card in the
deck, drawing one leaves that card present in both the hand and the deck,
refuting the unconditional no-card-in-both clause. -/
theorem C6_counterexample :
    Hand.draw 1 { player := 0, _cards := [] } [dupCard, dupCard] =
      .ok (DrawResult.one dupCard, { player := 0, _cards := [dupCard] },
        [dupCard]) ∧
    dupCard ∈ ({ player := 0, _cards := [dupCard] } : Hand)._cards ∧
    dupCard ∈ [dupCard] :=
  ⟨rfl, by simp, by simp⟩

/-- Helper: dealing 7 cards to each hand in order consumes exactly the
first `7 * k` deck cards; every hand keeps its player and gains exactly 7
cards. -/
theorem UNO.deal_cards_eq (hands : List Hand) (deck : List Card)
    (hd : 7 * hands.length ≤ deck.length) :
    ∃ hs, UNO.deal_cards hands deck = .ok (hs, deck.drop (7 * hands.length)) ∧
      hs.map (fun h => (h.player, h._cards.length)) =
        hands.map (fun h => (h.player, h._cards.length + 7)) := by
  induction hands generalizing deck with
  | nil => exact ⟨[], by simp [UNO.deal_cards], rfl⟩
  | cons h hs ih =>
    have h7 : 7 ≤ deck.length := by
      simp only [List.length_cons] at hd
      omega
    have hdraw : Hand.draw 7 h deck =
        .ok (DrawResult.many (deck.take 7),
          { h with _cards := h._cards ++ deck.take 7 }, deck.drop 7) := by
      have : (7 : Nat) ≠ 1 := by omega
      simp [Hand.draw, this, Hand.drawLoop_eq 7 h deck h7]
    have hrest : 7 * hs.length ≤ (deck.drop 7).length := by
      simp only [List.length_cons] at hd
      simp only [List.length_drop]
      omega
    obtain ⟨hs2, heq, hmap⟩ := ih (deck.drop 7) hrest
    refine ⟨{ h with _cards := h._cards ++ deck.take 7 } :: hs2, ?_, ?_⟩
    · have harith : 7 + 7 * hs.length = 7 * (h :: hs).length := by
        simp only [List.length_cons]
        omega
      simp only [UNO.deal_cards, hdraw, heq, List.drop_drop, harith]
    · simp only [List.map_cons, hmap, List.length_append, List.length_take,
        Nat.min_eq_left h7]

/-- C1. Dealing postcondition: with `k` joined players and a deck holding
at least `7k + 1` cards, running the hand construction of
`_run_initial_prompts` followed by `_setup` succeeds and yields one hand
per player (players preserved up to the shuffle permutation), exactly 7
cards in every hand, the deck shorter by exactly `7k + 1` cards with the
extra card popped into `current`, and `turn = 0`, a valid index into
`hands`. -/
theorem C1_dealing_postcondition (players order : List Nat)
    (shuffledDeck : List Card) (hperm : order.Perm players)
    (hk : 1 ≤ players.length)
    (hdeck : 7 * players.length + 1 ≤ shuffledDeck.length) :
    ∃ st, UNO.setup (UNO.run_initial_prompts order) shuffledDeck = .ok st ∧
      st.hands.length = players.length ∧
      (∀ hh ∈ st.hands, hh._cards.length = 7) ∧
      (st.hands.map Hand.player).Perm players ∧
      (∃ c rest, shuffledDeck = c :: rest ∧ st.current = some c) ∧
      st.deck = shuffledDeck.drop (7 * players.length + 1) ∧
      st.deck.length + (7 * players.length + 1) = shuffledDeck.length ∧
      st.turn = 0 ∧ st.turn < st.hands.length := by
  have hlen : order.length = players.length := hperm.length_eq
  cases shuffledDeck with
  | nil =>
    simp only [List.length_nil] at hdeck
    omega
  | cons c rest =>
    have hrest : 7 * (UNO.run_initial_prompts order).length ≤ rest.length := by
      simp only [UNO.run_initial_prompts, List.length_map, hlen]
      simp only [List.length_cons] at hdeck
      omega
    obtain ⟨hs, heq, hmap⟩ :=
      UNO.deal_cards_eq (UNO.run_initial_prompts order) rest hrest
    have hmap2 : hs.map (fun h => (h.player, h._cards.length)) =
        order.map (fun p => (p, 7)) := by
      rw [hmap]
      simp [UNO.run_initial_prompts]
    have hslen : hs.length = players.length := by
      have := congrArg List.length hmap2
      simpa [hlen] using this
    have hcards7 : ∀ hh ∈ hs, hh._cards.length = 7 := by
      intro hh hhm
      have hin : (hh.player, hh._cards.length) ∈ order.map (fun p => (p, 7)) := by
        rw [← hmap2]
        exact List.mem_map.mpr ⟨hh, hhm, rfl⟩
      obtain ⟨p, _, hp⟩ := List.mem_map.mp hin
      exact ((Prod.ext_iff.mp hp).2).symm
    have hplayers : hs.map Hand.player = order := by
      have hfst := congrArg (List.map Prod.fst) hmap2
      rw [List.map_map, List.map_map] at hfst
      simpa [Function.comp_def] using hfst
    refine ⟨⟨some c, hs, rest.drop (7 * (UNO.run_initial_prompts order).length), 0⟩,
      ?_, hslen, hcards7, ?_, ⟨c, rest, rfl, rfl⟩, ?_, ?_, rfl, ?_⟩
    · simp only [UNO.setup, Deck.pop, heq]
    · rw [hplayers]
      exact hperm
    · show rest.drop (7 * (UNO.run_initial_prompts order).length) =
        (c :: rest).drop (7 * players.length + 1)
      simp only [UNO.run_initial_prompts, List.length_map, hlen,
        List.drop_succ_cons]
    · show (rest.drop (7 * (UNO.run_initial_prompts order).length)).length +
        (7 * players.length + 1) = (c :: rest).length
      have hdl : (rest.drop (7 * (UNO.run_initial_prompts order).length)).length =
          rest.length - 7 * players.length := by
        simp [UNO.run_initial_prompts, hlen]
      rw [hdl]
      simp only [List.length_cons] at hdeck ⊢
      omega
    · show (0 : Nat) < hs.length
      omega

/-- C1 witness: a two-player deal out of a 15-card deck, with the hand
order reversing the player order. -/
theorem C1_witness :
    ∃ st, UNO.setup (UNO.run_initial_prompts [1, 0]) witnessDeck = .ok st ∧
      st.hands.length = [0, 1].length ∧
      (∀ hh ∈ st.hands, hh._cards.length = 7) ∧
      (st.hands.map Hand.player).Perm [0, 1] ∧
      (∃ c rest, witnessDeck = c :: rest ∧ st.current = some c) ∧
      st.deck = witnessDeck.drop (7 * [0, 1].length + 1) ∧
      st.deck.length + (7 * [0, 1].length + 1) = witnessDeck.length ∧
      st.turn = 0 ∧ st.turn < st.hands.length :=
  C1_dealing_postcondition [0, 1] [1, 0] witnessDeck
    (by decide) (by decide) (by decide)

/-- Helper: the sort-key comparison is transitive. -/
theorem keyLe_trans (a b c : Card) :
    Card.keyLe a b = true → Card.keyLe b c = true → Card.keyLe a c = true := by
  simp only [Card.keyLe, keyTupleLe, Hand.card_sort_key, decide_eq_true_eq]
  omega

/-- Helper: the sort-key comparison is total. -/
theorem keyLe_total (a b : Card) :
    (Card.keyLe a b || Card.keyLe b a) = true := by
  simp only [Card.keyLe, keyTupleLe, Hand.card_sort_key, Bool.or_eq_true,
    decide_eq_true_eq]
  omega

/-- C9. The `Hand.cards` view: reading it yields a list that is
non-decreasing under the (color, type, value-or-0) key, contains exactly
the cards of the underlying storage, and leaves the hand itself (storage
order included) unchanged. -/
theorem C9_cards_sorted_view (h : Hand) :
    ((Hand.cards h).1).Pairwise (fun a b => Card.keyLe a b = true) ∧
    ((Hand.cards h).1).Perm h._cards ∧
    (Hand.cards h).2 = h :=
  ⟨List.sorted_mergeSort keyLe_trans keyLe_total h._cards,
   List.mergeSort_perm h._cards Card.keyLe, rfl⟩
